import Mathlib

/-!
Verification development for the Crypto_Trade_Backtester repository.

The Python sources are shallowly embedded over exact rational arithmetic
(`ℚ` in place of Python floats), with pandas timestamps modelled as rational
numbers of seconds.  Fallible arithmetic (Python's `ZeroDivisionError` in
`calculate_max_drawdown`) is modelled with `Option`.  `pandas.Series.ewm`
with `adjust=False` never produces NaN on NaN-free input, so the
`pd.isna` guards of the sources are identically false and are elided.

Embedded sources:
  * `Backtest_MA_Crossover.py`: `compute_equity`, `calculate_max_drawdown`,
    `do_buy_trade`, `do_partial_sell`, the per-bar loop of
    `backtest_partial_accumulation_with_dd_and_partial_sells`.
  * `Crypto_Trade_Backtest.py`: `simulate_strategy` (per-bar loop and the
    end-of-run liquidation), `get_random_sample`, the grouping/ranking core
    of `aggregate_overall_results`.
-/

/-- One close-price observation; `timestamp` counts seconds. -/
structure Bar where
  timestamp : ℚ
  close : ℚ
deriving DecidableEq, Repr

/-- An open position, as the dict built by `do_buy_trade` /
`simulate_strategy`'s staged buy. -/
structure Position where
  timestamp_open : ℚ
  buy_price : ℚ
  effective_buy_price : ℚ
  size : ℚ
  buy_fee : ℚ
deriving DecidableEq, Repr

/-- The record appended to `closed_trades` by `do_partial_sell`. -/
structure ClosedTrade where
  timestamp_open : ℚ
  timestamp_close : ℚ
  buy_price : ℚ
  effective_buy_price : ℚ
  sell_price : ℚ
  effective_sell_price : ℚ
  size : ℚ
  buy_fee : ℚ
  sell_fee : ℚ
  gross_pnl : ℚ
  net_pnl : ℚ
  holding_days : ℚ
deriving DecidableEq, Repr

/-- The `partial_plan` dict of both backtest variants. -/
structure Plan where
  active : Bool
  steps_left : ℕ
  remaining_value : ℚ
deriving DecidableEq, Repr

/-- `Backtest_MA_Crossover.py` lines 58-60: `compute_equity`. -/
def compute_equity (balance : ℚ) (open_positions : List Position) (current_price : ℚ) : ℚ :=
  balance + (open_positions.map (fun pos => pos.size * current_price)).sum

/-- Division as Python performs it: `ZeroDivisionError` on a zero
denominator becomes `none`. -/
def pydiv (a b : ℚ) : Option ℚ :=
  if b = 0 then none else some (a / b)

/-- The loop of `calculate_max_drawdown` (`Backtest_MA_Crossover.py`
lines 65-72), carrying `(peak, max_dd)`. -/
def ddLoop : List ℚ → ℚ → ℚ → Option (ℚ × ℚ)
  | [], peak, max_dd => some (peak, max_dd)
  | eq :: rest, peak, max_dd =>
    let peak := if peak < eq then eq else peak
    match pydiv (peak - eq) peak with
    | none => none
    | some dd => ddLoop rest peak (if max_dd < dd then dd else max_dd)

/-- `Backtest_MA_Crossover.py` lines 62-73: `calculate_max_drawdown`.
Python raises `ZeroDivisionError` when a running peak is `0`; here that
is `none`. -/
def calculate_max_drawdown (equity_curve : List ℚ) : Option ℚ :=
  match equity_curve with
  | [] => some 0
  | e0 :: _ =>
    match ddLoop equity_curve e0 0 with
    | none => none
    | some pm => some (pm.2 * 100)

/-- The user-defined settings block of `Backtest_MA_Crossover.py`
(lines 13-36), with the module constants as defaults.  The MA types are
all `"ema"` there, so the embedding fixes EMA. -/
structure MACConfig where
  short_ma_length : ℕ := 18
  mid_ma_length : ℕ := 27
  long_ma_length : ℕ := 40
  price_threshold : ℚ := 1/100
  initial_balance : ℚ := 1000
  position_size_percent : ℚ := 15
  take_profit_percent : ℚ := 9000
  reentry_gap_percent : ℚ := 12
  slippage : ℚ := 5/10000
  fee_rate : ℚ := 0
  close_profit_buffer_percent : ℚ := 5
  close_all_on_crossdown : Bool := false
  max_open_trades : ℕ := 15
  accumulation_steps : ℕ := 2
  close_profit_on_crossdown : Bool := true
  increase_x_percent : ℚ := 0
deriving Repr

/-- The mutable simulation state closed over by
`backtest_partial_accumulation_with_dd_and_partial_sells`
(`Backtest_MA_Crossover.py` lines 91-107). -/
structure MACState where
  balance : ℚ
  open_positions : List Position
  closed_trades : List ClosedTrade
  equity_curve : List ℚ
  max_open_positions : ℕ
  plan : Plan
  last_buy_price : Option ℚ
  peak_equity : ℚ
  next_trade_value : Option ℚ
  bh_curve : List ℚ
deriving Repr

/-- `Backtest_MA_Crossover.py` lines 109-136: `do_buy_trade`. -/
def do_buy_trade (cfg : MACConfig) (trade_value current_price timestamp : ℚ)
    (st : MACState) : MACState :=
  if trade_value ≤ 0 ∨ st.balance ≤ 0 then st else
  let tv := min trade_value st.balance
  let actual_buy_price := current_price * (1 + cfg.slippage)
  let cost_before_fee := tv
  let buy_fee := cost_before_fee * cfg.fee_rate
  let total_cost := cost_before_fee + buy_fee
  let cbt : ℚ × ℚ × ℚ :=
    if st.balance < total_cost then
      let c := st.balance / (1 + cfg.fee_rate)
      (c, c * cfg.fee_rate, c + c * cfg.fee_rate)
    else (cost_before_fee, buy_fee, total_cost)
  let size := cbt.1 / actual_buy_price
  { st with
    balance := st.balance - cbt.2.2
    open_positions := st.open_positions ++
      [⟨timestamp, current_price, actual_buy_price, size, cbt.2.1⟩]
    last_buy_price := some current_price }

/-- Sizes below this are treated as fully closed (`1e-8` in the source). -/
def epsSize : ℚ := 1/100000000

/-- `Backtest_MA_Crossover.py` lines 138-174: `do_partial_sell`.  Returns
the appended `ClosedTrade`, the updated position, and the net proceeds
credited to the balance. -/
def do_partial_sell (cfg : MACConfig) (pos : Position) (frac current_price timestamp : ℚ) :
    ClosedTrade × Position × ℚ :=
  let actual_sell_price := current_price * (1 - cfg.slippage)
  let sell_size := pos.size * frac
  let proceeds_before_fee := sell_size * actual_sell_price
  let sell_fee := proceeds_before_fee * cfg.fee_rate
  let net_proceeds := proceeds_before_fee - sell_fee
  let buy_cost_for_this_sell := sell_size * pos.effective_buy_price
  let gross_pnl := proceeds_before_fee - buy_cost_for_this_sell
  let net_pnl := net_proceeds - buy_cost_for_this_sell
  let holding_days := (timestamp - pos.timestamp_open) / 86400
  let ct : ClosedTrade :=
    ⟨pos.timestamp_open, timestamp, pos.buy_price, pos.effective_buy_price,
     current_price, actual_sell_price, sell_size, pos.buy_fee, sell_fee,
     gross_pnl, net_pnl, holding_days⟩
  let new_size := pos.size - sell_size
  let new_size := if new_size < epsSize then 0 else new_size
  (ct, { pos with size := new_size }, net_proceeds)

/-- The recurrence of `pandas.Series.ewm(span, adjust=False).mean()`:
`y[t] = x[t]·α + y[t-1]·(1-α)`, starting from the given previous value. -/
def emaFrom (alpha : ℚ) : ℚ → List ℚ → List ℚ
  | _, [] => []
  | prev, x :: xs =>
    let y := x * alpha + prev * (1 - alpha)
    y :: emaFrom alpha y xs

/-- `calculate_ma` with `ma_type="ema"` (`Backtest_MA_Crossover.py`
lines 49-56): `ewm(span=window, adjust=False).mean()`, whose smoothing
factor is `α = 2/(window+1)` and whose first output equals the first
observation. -/
def calculate_ma (window : ℕ) (prices : List ℚ) : List ℚ :=
  match prices with
  | [] => []
  | x :: xs => x :: emaFrom (2 / (window + 1)) x xs

/-- Resetting the accumulation plan on a crossdown
(`Backtest_MA_Crossover.py` lines 232-234). -/
def abortPlan (st : MACState) : MACState :=
  { st with plan := ⟨false, 0, 0⟩ }

/-- One iteration of a `for pos in open_positions[:]` sell loop of
`Backtest_MA_Crossover.py`: a position satisfying `p` is fully sold via
`do_partial_sell` with ratio `1.0` and removed when its residual size is
below `epsSize`; other positions are kept. -/
def sellStep (cfg : MACConfig) (p : Position → Bool) (current_price timestamp : ℚ)
    (acc : MACState) (pos : Position) : MACState :=
  if p pos then
    let r := do_partial_sell cfg pos 1 current_price timestamp
    { acc with
      balance := acc.balance + r.2.2
      closed_trades := acc.closed_trades ++ [r.1]
      open_positions :=
        if r.2.1.size < epsSize then acc.open_positions
        else acc.open_positions ++ [r.2.1] }
  else { acc with open_positions := acc.open_positions ++ [pos] }

/-- The `for pos in open_positions[:]` sell loops of
`Backtest_MA_Crossover.py` (lines 208-213, 237-240 and 243-248). -/
def sellPositionsWhere (cfg : MACConfig) (p : Position → Bool)
    (current_price timestamp : ℚ) (st : MACState) : MACState :=
  st.open_positions.foldl (sellStep cfg p current_price timestamp)
    { st with open_positions := [] }

/-- Whether a position has reached its take-profit target
(`current_price >= pos["buy_price"] * target_mult`, line 210). -/
def tpTriggered (cfg : MACConfig) (current_price : ℚ) (pos : Position) : Bool :=
  decide (pos.buy_price * (1 + cfg.take_profit_percent / 100) ≤ current_price)

/-- `Backtest_MA_Crossover.py` lines 206-213: the per-bar take-profit
check over all open positions. -/
def takeProfitStep (cfg : MACConfig) (current_price timestamp : ℚ)
    (st : MACState) : MACState :=
  sellPositionsWhere cfg (tpTriggered cfg current_price) current_price timestamp st

/-- `Backtest_MA_Crossover.py` lines 230-248: what runs when
`cross_down` holds — abort an active plan, then apply the configured
liquidation policy. -/
def crossdownActions (cfg : MACConfig) (current_price timestamp : ℚ)
    (st : MACState) : MACState :=
  let st := if st.plan.active then abortPlan st else st
  if cfg.close_all_on_crossdown then
    sellPositionsWhere cfg (fun _ => true) current_price timestamp st
  else if cfg.close_profit_on_crossdown then
    sellPositionsWhere cfg
      (fun pos => decide (cfg.close_profit_buffer_percent
        < (current_price - pos.buy_price) / pos.buy_price * 100))
      current_price timestamp st
  else st

/-- `Backtest_MA_Crossover.py` lines 191-204: one bar of partial
accumulation plan execution (including the `next_trade_value` update on
cycle completion). -/
def accumulationStep (cfg : MACConfig) (current_price timestamp : ℚ)
    (st : MACState) : MACState :=
  if st.plan.active = true ∧ 0 < st.plan.steps_left then
    let step_value := st.plan.remaining_value / (st.plan.steps_left : ℚ)
    let remaining := st.plan.remaining_value - step_value
    let steps := st.plan.steps_left - 1
    let st1 := do_buy_trade cfg step_value current_price timestamp st
    if steps = 0 then
      let ntv := match st.next_trade_value with
        | none => remaining + step_value
        | some v => v * (1 + cfg.increase_x_percent / 100)
      { st1 with plan := ⟨false, 0, remaining⟩, next_trade_value := some ntv }
    else { st1 with plan := ⟨true, steps, remaining⟩ }
  else st

/-- `Backtest_MA_Crossover.py` lines 251-276: the entry condition with
the reentry-gap check and the martingale sizing of `next_trade_value`. -/
def entryStep (cfg : MACConfig) (current_price price_diff : ℚ)
    (short_ma_curr mid_ma_curr long_ma_curr : ℚ) (st : MACState) : MACState :=
  if long_ma_curr < short_ma_curr ∧ long_ma_curr < mid_ma_curr
      ∧ st.plan.active = false ∧ cfg.price_threshold < price_diff then
    if st.open_positions.length < cfg.max_open_trades then
      let can_buy : Bool :=
        match st.open_positions, st.last_buy_price with
        | _ :: _, some lbp =>
          decide (current_price ≤ lbp * (1 - cfg.reentry_gap_percent / 100))
        | _, _ => true
      if can_buy then
        let eq_now := compute_equity st.balance st.open_positions current_price
        let base_trade_value := eq_now * (cfg.position_size_percent / 100)
        let ntv := match st.next_trade_value, st.open_positions with
          | none, _ => base_trade_value
          | _, [] => base_trade_value
          | some v, _ :: _ => v * (1 + cfg.increase_x_percent / 100)
        let total_trade_value := min ntv st.balance
        if 0 < total_trade_value then
          { st with plan := ⟨true, cfg.accumulation_steps, total_trade_value⟩,
                    next_trade_value := some ntv }
        else { st with next_trade_value := some ntv }
      else st
    else st
  else st

/-- One iteration of the main candle loop of
`backtest_partial_accumulation_with_dd_and_partial_sells`
(`Backtest_MA_Crossover.py` lines 177-281).  The `pd.isna` guards are
identically false for EMA series (see the header comment). -/
def macBarStep (cfg : MACConfig) (bh_size : ℚ)
    (closes timestamps short_ma mid_ma long_ma : List ℚ)
    (i : ℕ) (st : MACState) : MACState :=
  let current_price := closes.getD i 0
  let timestamp := timestamps.getD i 0
  let st := { st with bh_curve := st.bh_curve ++ [bh_size * current_price] }
  let current_equity := compute_equity st.balance st.open_positions current_price
  let st := { st with
    equity_curve := st.equity_curve ++ [current_equity]
    peak_equity := if st.peak_equity < current_equity then current_equity
                   else st.peak_equity }
  let st := accumulationStep cfg current_price timestamp st
  let st := takeProfitStep cfg current_price timestamp st
  if i < max cfg.short_ma_length (max cfg.mid_ma_length cfg.long_ma_length) then st
  else
    let short_ma_curr := short_ma.getD i 0
    let mid_ma_curr := mid_ma.getD i 0
    let long_ma_curr := long_ma.getD i 0
    let short_ma_prev := short_ma.getD (i - 1) 0
    let mid_ma_prev := mid_ma.getD (i - 1) 0
    let prev_close := closes.getD (i - 1) 0
    let price_diff := (current_price - prev_close) / prev_close * 100
    let cross_down := short_ma_curr < mid_ma_curr ∧ mid_ma_prev ≤ short_ma_prev
    let st := if cross_down then crossdownActions cfg current_price timestamp st else st
    let st := entryStep cfg current_price price_diff
      short_ma_curr mid_ma_curr long_ma_curr st
    { st with max_open_positions := max st.max_open_positions st.open_positions.length }

/-- The `results` dict of `Backtest_MA_Crossover.py` lines 296-309. -/
structure MACResults where
  final_balance : ℚ
  final_equity : ℚ
  total_pnl : ℚ
  max_drawdown : Option ℚ
  open_positions : List Position
  closed_trades : List ClosedTrade
  equity_curve : List ℚ
  max_open_positions : ℕ
  buy_and_hold_equity_curve : List ℚ
  buy_and_hold_final_equity : ℚ
  buy_and_hold_total_pnl : ℚ
  buy_and_hold_max_dd : Option ℚ
deriving Repr

/-- The initial state of the MA-crossover backtest
(`Backtest_MA_Crossover.py` lines 91-107). -/
def macInit (cfg : MACConfig) : MACState :=
  ⟨cfg.initial_balance, [], [], [], 0, ⟨false, 0, 0⟩, none,
   cfg.initial_balance, none, []⟩

/-- `Backtest_MA_Crossover.py` lines 78-310:
`backtest_partial_accumulation_with_dd_and_partial_sells`.  (Python
crashes on an empty DataFrame at `iloc[0]`; only nonempty inputs are
considered.) -/
def backtest_partial_accumulation_with_dd_and_partial_sells
    (cfg : MACConfig) (data : List Bar) : MACResults :=
  let closes := data.map (fun b => b.close)
  let timestamps := data.map (fun b => b.timestamp)
  let first_price := closes.getD 0 0
  let bh_size := cfg.initial_balance / first_price
  let short_ma := calculate_ma cfg.short_ma_length closes
  let mid_ma := calculate_ma cfg.mid_ma_length closes
  let long_ma := calculate_ma cfg.long_ma_length closes
  let stF := (List.range data.length).foldl
    (fun st i => macBarStep cfg bh_size closes timestamps short_ma mid_ma long_ma i st)
    (macInit cfg)
  let final_price := closes.getD (data.length - 1) 0
  let final_equity := compute_equity stF.balance stF.open_positions final_price
  let equity_curve := stF.equity_curve ++ [final_equity]
  let bh_final := stF.bh_curve.getD (stF.bh_curve.length - 1) 0
  { final_balance := stF.balance
    final_equity := final_equity
    total_pnl := final_equity - cfg.initial_balance
    max_drawdown := calculate_max_drawdown equity_curve
    open_positions := stF.open_positions
    closed_trades := stF.closed_trades
    equity_curve := equity_curve
    max_open_positions := stF.max_open_positions
    buy_and_hold_equity_curve := stF.bh_curve
    buy_and_hold_final_equity := bh_final
    buy_and_hold_total_pnl := bh_final - cfg.initial_balance
    buy_and_hold_max_dd := calculate_max_drawdown stF.bh_curve }

/-- Iterating the accumulation-plan execution over consecutive active
bars, each bar given as a `(close, timestamp)` pair. -/
def runAccum (cfg : MACConfig) (bars : List (ℚ × ℚ)) (st : MACState) : MACState :=
  bars.foldl (fun s b => accumulationStep cfg b.1 b.2 s) st

/-- The fixed strategy parameters of `Crypto_Trade_Backtest.py`
(lines 33-45), as module constants there. -/
structure SimConfig where
  position_size_percent : ℚ := 15/2
  slippage : ℚ := 5/10000
  fee_rate : ℚ := 1/1000
  accumulation_steps : ℕ := 2
  price_threshold : ℚ := 1/100
  max_open_trades : ℕ := 15
  close_profit_buffer_percent : ℚ := 5
  initial_balance : ℚ := 1000
deriving Repr

/-- The varied parameters of `simulate_strategy`:
`(short_ma_length, mid_ma_length, long_ma_length, reentry_gap)`. -/
structure SimParams where
  short_ma_length : ℕ
  mid_ma_length : ℕ
  long_ma_length : ℕ
  reentry_gap : ℚ
deriving DecidableEq, Repr

/-- The `"action"` tag of the `trades` records of `simulate_strategy`. -/
inductive SimAction where
  | buy
  | sell_crossdown
  | sell_final
deriving DecidableEq, Repr

/-- One record of the `trades` list of `simulate_strategy`. -/
structure SimTrade where
  action : SimAction
  price : ℚ
  size : ℚ
  timestamp : ℚ
deriving DecidableEq, Repr

/-- The mutable state of `simulate_strategy`
(`Crypto_Trade_Backtest.py` lines 70-73). -/
structure SimState where
  balance : ℚ
  open_positions : List Position
  plan : Plan
  trades : List SimTrade
deriving Repr

/-- `Crypto_Trade_Backtest.py` lines 90-116: Step 1, partial accumulation
execution (this variant clamps the step value to the balance before
decrementing the plan). -/
def simAccumulationStep (cfg : SimConfig) (current_price timestamp : ℚ)
    (st : SimState) : SimState :=
  if st.plan.active = true ∧ 0 < st.plan.steps_left then
    let step_value := st.plan.remaining_value / (st.plan.steps_left : ℚ)
    let step_value := if st.balance < step_value then st.balance else step_value
    if 0 < step_value then
      let actual_buy_price := current_price * (1 + cfg.slippage)
      let fee := step_value * cfg.fee_rate
      let sf : ℚ × ℚ :=
        if st.balance < step_value + fee then
          let sv := st.balance / (1 + cfg.fee_rate)
          (sv, sv * cfg.fee_rate)
        else (step_value, fee)
      let size := sf.1 / actual_buy_price
      let steps := st.plan.steps_left - 1
      { st with
        open_positions := st.open_positions ++
          [⟨timestamp, current_price, actual_buy_price, size, sf.2⟩]
        trades := st.trades ++ [⟨.buy, current_price, size, timestamp⟩]
        balance := st.balance - (sf.1 + sf.2)
        plan := if steps = 0 then ⟨false, 0, st.plan.remaining_value - sf.1⟩
                else ⟨true, steps, st.plan.remaining_value - sf.1⟩ }
    else st
  else st

/-- `Crypto_Trade_Backtest.py` lines 126-137: the crossdown branch —
reset an active plan, then sell every position whose unrealized profit
percentage exceeds the buffer. -/
def simCrossdownStep (cfg : SimConfig) (current_price timestamp : ℚ)
    (st : SimState) : SimState :=
  let st := if st.plan.active then { st with plan := ⟨false, 0, 0⟩ } else st
  st.open_positions.foldl
    (fun acc pos =>
      if cfg.close_profit_buffer_percent
          < (current_price - pos.buy_price) / pos.buy_price * 100 then
        let actual_sell_price := current_price * (1 - cfg.slippage)
        let proceeds := pos.size * actual_sell_price
        let fee_sell := proceeds * cfg.fee_rate
        { acc with
          balance := acc.balance + (proceeds - fee_sell)
          trades := acc.trades ++
            [⟨.sell_crossdown, current_price, pos.size, timestamp⟩] }
      else { acc with open_positions := acc.open_positions ++ [pos] })
    { st with open_positions := [] }

/-- `Crypto_Trade_Backtest.py` lines 139-150: Step 4, the entry condition
with the reentry gap check. -/
def simEntryStep (cfg : SimConfig) (reentry_gap current_price price_diff : ℚ)
    (short_ma_curr mid_ma_curr long_ma_curr : ℚ) (st : SimState) : SimState :=
  if long_ma_curr < short_ma_curr ∧ long_ma_curr < mid_ma_curr
      ∧ cfg.price_threshold < price_diff
      ∧ st.open_positions.length < cfg.max_open_trades then
    let can_buy : Bool :=
      match st.open_positions.getLast? with
      | some lastp =>
        decide (current_price ≤ lastp.buy_price * (1 - reentry_gap / 100))
      | none => true
    if can_buy = true ∧ st.plan.active = false ∧ 0 < st.balance then
      { st with plan := ⟨true, cfg.accumulation_steps,
          st.balance * (cfg.position_size_percent / 100)⟩ }
    else st
  else st

/-- One iteration of the simulation loop of `simulate_strategy`
(`Crypto_Trade_Backtest.py` lines 78-150).  The `pd.notna` guards are
identically true for EMA series over NaN-free closes. -/
def simBarStep (cfg : SimConfig) (params : SimParams)
    (closes timestamps short_ma mid_ma long_ma : List ℚ)
    (start_index i : ℕ) (st : SimState) : SimState :=
  let current_price := closes.getD i 0
  let timestamp := timestamps.getD i 0
  let prev_close := closes.getD (i - 1) 0
  let price_diff := (current_price - prev_close) / prev_close * 100
  let st := simAccumulationStep cfg current_price timestamp st
  let st :=
    if start_index < i
        ∧ short_ma.getD i 0 < mid_ma.getD i 0
        ∧ mid_ma.getD (i - 1) 0 ≤ short_ma.getD (i - 1) 0 then
      simCrossdownStep cfg current_price timestamp st
    else st
  simEntryStep cfg params.reentry_gap current_price price_diff
    (short_ma.getD i 0) (mid_ma.getD i 0) (long_ma.getD i 0) st

/-- The simulation loop of `simulate_strategy`, from `start_index` to the
end of the data. -/
def simulate_loop (cfg : SimConfig) (params : SimParams) (data : List Bar) : SimState :=
  let closes := data.map (fun b => b.close)
  let timestamps := data.map (fun b => b.timestamp)
  let short_ma := calculate_ma params.short_ma_length closes
  let mid_ma := calculate_ma params.mid_ma_length closes
  let long_ma := calculate_ma params.long_ma_length closes
  let start_index := max params.short_ma_length
    (max params.mid_ma_length params.long_ma_length)
  (List.range' start_index (data.length - start_index)).foldl
    (fun st i => simBarStep cfg params closes timestamps short_ma mid_ma long_ma
      start_index i st)
    ⟨cfg.initial_balance, [], ⟨false, 0, 0⟩, []⟩

/-- One iteration of the end-of-simulation liquidation loop
(`Crypto_Trade_Backtest.py` lines 155-159). -/
def simLiqStep (cfg : SimConfig) (last_close last_ts : ℚ)
    (acc : SimState) (pos : Position) : SimState :=
  let proceeds := pos.size * (last_close * (1 - cfg.slippage))
  let fee_sell := proceeds * cfg.fee_rate
  { acc with
    balance := acc.balance + (proceeds - fee_sell)
    trades := acc.trades ++ [⟨.sell_final, last_close, pos.size, last_ts⟩] }

/-- `Crypto_Trade_Backtest.py` lines 152-159: the end-of-simulation
liquidation of any remaining positions at the final close minus
slippage. -/
def simFinalLiquidation (cfg : SimConfig) (data : List Bar) (st : SimState) : SimState :=
  match st.open_positions with
  | [] => st
  | _ =>
    let last_close := (data.map (fun b => b.close)).getD (data.length - 1) 0
    let last_ts := (data.map (fun b => b.timestamp)).getD (data.length - 1) 0
    st.open_positions.foldl (simLiqStep cfg last_close last_ts) st

/-- The result record of `simulate_strategy`
(`Crypto_Trade_Backtest.py` lines 162-170). -/
structure SimResult where
  params : SimParams
  final_balance : ℚ
  total_pnl : ℚ
  num_trades : ℕ
deriving Repr

/-- `Crypto_Trade_Backtest.py` lines 57-170: `simulate_strategy`. -/
def simulate_strategy (cfg : SimConfig) (params : SimParams) (data : List Bar) :
    SimResult :=
  let st := simulate_loop cfg params data
  let st := simFinalLiquidation cfg data st
  { params := params
    final_balance := st.balance
    total_pnl := st.balance - cfg.initial_balance
    num_trades := st.trades.length }

/-- `MIN_PERIOD_DAYS = 365` (`Crypto_Trade_Backtest.py` line 44) as
seconds, matching the `pd.Timedelta(days=MIN_PERIOD_DAYS)` of line 204
with timestamps counted in seconds. -/
def MIN_PERIOD_SECONDS : ℚ := 365 * 86400

/-- `Crypto_Trade_Backtest.py` lines 198-214: `get_random_sample`.
`rnd lo hi` stands for `random.randint(lo, hi)`; it is expected to return
a value in `[lo, hi]` (a start index outside the data, impossible for
Python's `randint`, is mapped to `none`). -/
def get_random_sample (rnd : ℕ → ℕ → ℕ) (min_period : ℚ) (data : List Bar) :
    Option (List Bar) :=
  let n := data.length
  if n < 2 then none else
  let start_idx := rnd 0 (n - 2)
  if n ≤ start_idx then none else
  let start_time := (data.getD start_idx ⟨0, 0⟩).timestamp
  let min_end_time := start_time + min_period
  match (List.range' (start_idx + 1) (n - (start_idx + 1))).find?
      (fun j => decide (min_end_time ≤ (data.getD j ⟨0, 0⟩).timestamp)) with
  | none => none
  | some e0 =>
    let end_idx := rnd e0 (n - 1)
    some ((data.drop start_idx).take (end_idx + 1 - start_idx))

/-- One row of a per-coin aggregated results file, as read back by
`aggregate_overall_results` (`Crypto_Trade_Backtest.py` lines 240-253):
the columns written by `run_optimization` plus the `coin` tag. -/
structure ResultRow where
  short_ma_length : ℕ
  mid_ma_length : ℕ
  long_ma_length : ℕ
  reentry_gap : ℚ
  coin : String
  final_balance : ℚ
  total_pnl : ℚ
deriving DecidableEq, Repr

/-- The groupby key of `aggregate_overall_results` (line 254-256). -/
def rowKey (r : ResultRow) : ℕ × ℕ × ℕ × ℚ × String :=
  (r.short_ma_length, r.mid_ma_length, r.long_ma_length, r.reentry_gap, r.coin)

/-- One row of `grouped_results` (`Crypto_Trade_Backtest.py`
lines 254-262): the key columns and the five aggregates. -/
structure AggRow where
  short_ma_length : ℕ
  mid_ma_length : ℕ
  long_ma_length : ℕ
  reentry_gap : ℚ
  coin : String
  total_final_balance : ℚ
  average_final_balance : ℚ
  total_pnl : ℚ
  average_pnl : ℚ
  num_trials : ℕ
deriving DecidableEq, Repr

/-- The key columns of an aggregated row. -/
def aggKey (g : AggRow) : ℕ × ℕ × ℕ × ℚ × String :=
  (g.short_ma_length, g.mid_ma_length, g.long_ma_length, g.reentry_gap, g.coin)

/-- The `.agg(...)` of `aggregate_overall_results` for one group key:
sum, mean and count of `final_balance` and `total_pnl` over the rows
with that key. -/
def mkAggRow (rows : List ResultRow) (k : ℕ × ℕ × ℕ × ℚ × String) : AggRow :=
  let g := rows.filter (fun r => rowKey r = k)
  let n := g.length
  { short_ma_length := k.1
    mid_ma_length := k.2.1
    long_ma_length := k.2.2.1
    reentry_gap := k.2.2.2.1
    coin := k.2.2.2.2
    total_final_balance := (g.map (fun r => r.final_balance)).sum
    average_final_balance := (g.map (fun r => r.final_balance)).sum / (n : ℚ)
    total_pnl := (g.map (fun r => r.total_pnl)).sum
    average_pnl := (g.map (fun r => r.total_pnl)).sum / (n : ℚ)
    num_trials := n }

/-- The descending order on `average_final_balance` used by
`sort_values(by="average_final_balance", ascending=False)`. -/
def aggGE (a b : AggRow) : Prop :=
  b.average_final_balance ≤ a.average_final_balance

instance : DecidableRel aggGE := fun a b =>
  inferInstanceAs (Decidable (b.average_final_balance ≤ a.average_final_balance))

instance : IsTotal AggRow aggGE :=
  ⟨fun a b => le_total b.average_final_balance a.average_final_balance⟩

instance : IsTrans AggRow aggGE :=
  ⟨fun _ _ _ h1 h2 => le_trans h2 h1⟩

/-- The grouping/ranking core of `aggregate_overall_results`
(`Crypto_Trade_Backtest.py` lines 253-263): group the combined rows by
`(short_ma_length, mid_ma_length, long_ma_length, reentry_gap, coin)`,
aggregate sums/means/count, and sort by `average_final_balance`
descending.  (CSV discovery, reading and writing are the excluded I/O
shell.) -/
def aggregate_overall_results (rows : List ResultRow) : List AggRow :=
  List.insertionSort aggGE (((rows.map rowKey).dedup).map (mkAggRow rows))

/-- C5: `compute_equity` returns `balance + Σ sizeᵢ·price` (the sum of the
sizes times the price) and, being a pure function of its arguments in this
embedding as in the source, modifies no state. -/
theorem compute_equity_sum (balance : ℚ) (open_positions : List Position)
    (current_price : ℚ) :
    compute_equity balance open_positions current_price
      = balance + (open_positions.map (fun pos => pos.size)).sum * current_price := by
  unfold compute_equity
  congr 1
  induction open_positions with
  | nil => simp
  | cons p ps ih => simp [ih, add_mul]

/-- Unfolding one iteration of `ddLoop` when the updated peak is
nonzero (so the division succeeds). -/
lemma ddLoop_cons (e : ℚ) (rest : List ℚ) (peak m : ℚ)
    (hp : (if peak < e then e else peak) ≠ 0) :
    ddLoop (e :: rest) peak m
      = ddLoop rest (if peak < e then e else peak)
          (if m < ((if peak < e then e else peak) - e) / (if peak < e then e else peak)
           then ((if peak < e then e else peak) - e) / (if peak < e then e else peak)
           else m) := by
  show (let peak' := if peak < e then e else peak;
    match pydiv (peak' - e) peak' with
    | none => none
    | some dd => ddLoop rest peak' (if m < dd then dd else m)) = _
  simp only [pydiv, if_neg hp]

/-- As long as the running peak stays nonzero — which it does whenever it
starts positive, since it only ever increases — `ddLoop` returns a value,
with a peak at least the initial one. -/
lemma ddLoop_isSome (l : List ℚ) : ∀ peak m : ℚ, 0 < peak →
    ∃ p' m', ddLoop l peak m = some (p', m') ∧ peak ≤ p' := by
  induction l with
  | nil => exact fun peak m hp => ⟨peak, m, rfl, le_refl _⟩
  | cons e rest ih =>
    intro peak m hp
    have hple : peak ≤ if peak < e then e else peak := by
      split <;> [exact le_of_lt (by assumption); exact le_refl _]
    have hp' : 0 < if peak < e then e else peak := lt_of_lt_of_le hp hple
    obtain ⟨p', m', heq, hle⟩ := ih (if peak < e then e else peak)
      (if m < ((if peak < e then e else peak) - e) / (if peak < e then e else peak)
       then ((if peak < e then e else peak) - e) / (if peak < e then e else peak)
       else m) hp'
    exact ⟨p', m', by rw [ddLoop_cons e rest peak m (ne_of_gt hp')]; exact heq,
      le_trans hple hle⟩

/-- When the entries are nonnegative and the running peak is positive, the
drawdown accumulator of `ddLoop` stays within `[0, 1]`. -/
lemma ddLoop_bounds (l : List ℚ) : ∀ peak m : ℚ, 0 < peak → 0 ≤ m → m ≤ 1 →
    (∀ x ∈ l, 0 ≤ x) →
    ∃ p' m', ddLoop l peak m = some (p', m') ∧ 0 ≤ m' ∧ m' ≤ 1 := by
  induction l with
  | nil => exact fun peak m _ hm0 hm1 _ => ⟨peak, m, rfl, hm0, hm1⟩
  | cons e rest ih =>
    intro peak m hp hm0 hm1 hnn
    have he : 0 ≤ e := hnn e (List.mem_cons_self e rest)
    set P := if peak < e then e else peak with hP
    have hple : peak ≤ P := by
      rw [hP]; split <;> [exact le_of_lt (by assumption); exact le_refl _]
    have hp' : 0 < P := lt_of_lt_of_le hp hple
    have heple : e ≤ P := by
      rw [hP]; split <;> [exact le_refl _; exact le_of_not_lt (by assumption)]
    have hdd0 : 0 ≤ (P - e) / P := div_nonneg (sub_nonneg.2 heple) (le_of_lt hp')
    have hdd1 : (P - e) / P ≤ 1 := (div_le_one hp').2 (by linarith)
    have hm0' : 0 ≤ if m < (P - e) / P then (P - e) / P else m := by
      split <;> assumption
    have hm1' : (if m < (P - e) / P then (P - e) / P else m) ≤ 1 := by
      split <;> assumption
    obtain ⟨p', m', heq, h0, h1⟩ := ih P
      (if m < (P - e) / P then (P - e) / P else m)
      hp' hm0' hm1' (fun x hx => hnn x (List.mem_cons_of_mem e hx))
    exact ⟨p', m', by rw [ddLoop_cons e rest peak m (ne_of_gt hp')]; exact heq, h0, h1⟩

/-- Over a nondecreasing tail whose head is at least the running peak, each
bar's drawdown is `0`, so the accumulator passes through unchanged. -/
lemma ddLoop_monotone (l : List ℚ) : ∀ peak m : ℚ, 0 < peak → 0 ≤ m →
    List.Chain' (· ≤ ·) l → (∀ x ∈ l.head?, peak ≤ x) →
    ∃ p', ddLoop l peak m = some (p', m) := by
  induction l with
  | nil => exact fun peak m _ _ _ _ => ⟨peak, rfl⟩
  | cons e rest ih =>
    intro peak m hp hm0 hchain hhead
    have hpe : peak ≤ e := hhead e rfl
    have hmax : (if peak < e then e else peak) = e := by
      split
      · rfl
      · exact le_antisymm hpe (not_lt.1 (by assumption))
    have he : 0 < e := lt_of_lt_of_le hp hpe
    obtain ⟨p', heq⟩ := ih e m he hm0 hchain.tail
      (fun x hx => by
        cases rest with
        | nil => simp at hx
        | cons y ys =>
          cases hx
          exact (List.chain'_cons.1 hchain).1)
    refine ⟨p', ?_⟩
    rw [ddLoop_cons e rest peak m (by rw [hmax]; exact ne_of_gt he), hmax]
    have hz : (e - e) / e = 0 := by rw [sub_self, zero_div]
    rw [hz, if_neg (not_lt.2 hm0)]
    exact heq

/-- C10 (confirmed): `calculate_max_drawdown` divides by the running peak
with no zero guard: it is total on every nonempty curve with a positive
first element (the peak only increases, hence never reaches `0`), but on
`[0, 1]` the first iteration divides `(0 - 0)` by the zero peak and the
computation fails (Python's `ZeroDivisionError`, `none` here) instead of
returning a drawdown. -/
theorem calculate_max_drawdown_division (e : ℚ) (rest : List ℚ) (h : 0 < e) :
    (calculate_max_drawdown (e :: rest)).isSome = true
    ∧ calculate_max_drawdown [0, 1] = none := by
  constructor
  · obtain ⟨p', m', heq, -⟩ := ddLoop_isSome (e :: rest) e 0 h
    show (match ddLoop (e :: rest) e 0 with
      | none => none
      | some pm => some (pm.2 * 100)).isSome = true
    rw [heq]
    rfl
  · rfl

/-- C10 witness: the curve `[1]` has positive first element `1` and the
function returns a value on it. -/
theorem calculate_max_drawdown_division_witness :
    (calculate_max_drawdown [1]).isSome = true
    ∧ calculate_max_drawdown [0, 1] = none :=
  calculate_max_drawdown_division 1 [] (by norm_num)

/-- C4 counterexample: the claim asserts the computed maximum drawdown lies
in `[0, 100]` for every equity curve, but on the curve `[1, -1]` the code
returns `200`. -/
theorem calculate_max_drawdown_out_of_range :
    calculate_max_drawdown [1, -1] = some 200 ∧ ¬ ((200 : ℚ) ≤ 100) := by
  constructor
  · show (match ddLoop [1, -1] 1 0 with
      | none => none
      | some pm => some (pm.2 * 100)) = some 200
    norm_num [ddLoop, pydiv]
  · norm_num

/-- C4 (corrected): for every equity curve with a positive first element
and nonnegative entries, the computed maximum drawdown lies in `[0, 100]`;
it is exactly `0` for a monotonically increasing curve, and the empty
curve yields `0`.  (Without those restrictions the claim fails: see the
counterexample, and C10 for the zero-peak failure.) -/
theorem calculate_max_drawdown_range (e : ℚ) (rest : List ℚ) (he : 0 < e)
    (hnn : ∀ x ∈ e :: rest, 0 ≤ x) :
    (∃ v, calculate_max_drawdown (e :: rest) = some v ∧ 0 ≤ v ∧ v ≤ 100
      ∧ (List.Chain' (· < ·) (e :: rest) → v = 0))
    ∧ calculate_max_drawdown ([] : List ℚ) = some 0 := by
  refine ⟨?_, rfl⟩
  obtain ⟨p', m', heq, h0, h1⟩ := ddLoop_bounds (e :: rest) e 0 he
    (le_refl 0) zero_le_one hnn
  refine ⟨m' * 100, ?_, by linarith, by linarith, ?_⟩
  · show (match ddLoop (e :: rest) e 0 with
      | none => none
      | some pm => some (pm.2 * 100)) = some (m' * 100)
    rw [heq]
  · intro hchain
    obtain ⟨p'', heq2⟩ := ddLoop_monotone (e :: rest) e 0 he (le_refl 0)
      (hchain.imp (fun a b hab => le_of_lt hab))
      (fun x hx => by cases hx; exact le_refl e)
    rw [heq] at heq2
    have hm : m' = 0 := congrArg Prod.snd (Option.some_inj.1 heq2)
    rw [hm, zero_mul]

/-- C4 witness: the strictly increasing positive curve `[1, 2]` satisfies
the hypotheses, and its maximum drawdown is `0`. -/
theorem calculate_max_drawdown_range_witness :
    (∃ v, calculate_max_drawdown [1, 2] = some v ∧ 0 ≤ v ∧ v ≤ 100
      ∧ (List.Chain' (· < ·) [(1 : ℚ), 2] → v = 0))
    ∧ calculate_max_drawdown ([] : List ℚ) = some 0 :=
  calculate_max_drawdown_range 1 [2] (by norm_num)
    (by intro x hx; fin_cases hx <;> norm_num)

/-- The default configuration: the module constants of
`Backtest_MA_Crossover.py` as shipped. -/
def macDefaults : MACConfig := {}

/-- The staged buy of `simulate_strategy` (clamping then proportional fee
reduction, lines 91-114) also keeps the balance nonnegative. -/
lemma simAccumulationStep_balance_nonneg (cfg : SimConfig) (price ts : ℚ)
    (st : SimState) (hfee : 0 ≤ cfg.fee_rate) (hb : 0 ≤ st.balance) :
    0 ≤ (simAccumulationStep cfg price ts st).balance := by
  unfold simAccumulationStep
  by_cases hact : st.plan.active = true ∧ 0 < st.plan.steps_left
  · rw [if_pos hact]
    dsimp only
    by_cases hpos : 0 < (if st.balance
        < st.plan.remaining_value / (st.plan.steps_left : ℚ)
      then st.balance else st.plan.remaining_value / (st.plan.steps_left : ℚ))
    · rw [if_pos hpos]
      set sv := if st.balance < st.plan.remaining_value / (st.plan.steps_left : ℚ)
        then st.balance else st.plan.remaining_value / (st.plan.steps_left : ℚ)
        with hsv
      have hsvb : sv ≤ st.balance := by
        rw [hsv]
        split
        · exact le_refl _
        · exact le_of_not_lt (by assumption)
      by_cases hc : st.balance < sv + sv * cfg.fee_rate
      · rw [if_pos hc]
        dsimp only
        have h1f : (0 : ℚ) < 1 + cfg.fee_rate := by linarith
        have heq : st.balance / (1 + cfg.fee_rate)
            + st.balance / (1 + cfg.fee_rate) * cfg.fee_rate = st.balance := by
          field_simp
          ring
        rw [sub_eq_add_neg, ← sub_eq_add_neg, heq, sub_self]
      · rw [if_neg hc]
        dsimp only
        push_neg at hc
        linarith
    · rw [if_neg hpos]
      exact hb
  · rw [if_neg hact]
    exact hb

/-- C6 (confirmed): no buy step overdraws the balance.  `do_buy_trade` is
a no-op when the requested notional is `≤ 0` or the balance is `≤ 0`; it
clamps the notional to the balance; and when notional plus fee would
exceed the balance, both are proportionally reduced so the total debited
equals the balance exactly.  The staged buy of `simulate_strategy` does
the same.  Hence after every buy step of a simulation, `balance ≥ 0`. -/
theorem do_buy_trade_no_overdraw (cfg : MACConfig) (cfgS : SimConfig)
    (tv price ts : ℚ) (st : MACState) (stS : SimState)
    (hfee : 0 ≤ cfg.fee_rate) (hfeeS : 0 ≤ cfgS.fee_rate) :
    ((tv ≤ 0 ∨ st.balance ≤ 0) → do_buy_trade cfg tv price ts st = st)
    ∧ (0 ≤ st.balance → 0 ≤ (do_buy_trade cfg tv price ts st).balance)
    ∧ (0 ≤ stS.balance → 0 ≤ (simAccumulationStep cfgS price ts stS).balance) := by
  refine ⟨?_, ?_, fun hbS =>
    simAccumulationStep_balance_nonneg cfgS price ts stS hfeeS hbS⟩
  · intro h
    unfold do_buy_trade
    rw [if_pos h]
  · intro hb
    unfold do_buy_trade
    by_cases h : tv ≤ 0 ∨ st.balance ≤ 0
    · rw [if_pos h]
      exact hb
    · rw [if_neg h]
      push_neg at h
      obtain ⟨htv, hbal⟩ := h
      dsimp only
      by_cases hc : st.balance < min tv st.balance + min tv st.balance * cfg.fee_rate
      · rw [if_pos hc]
        dsimp only
        have h1f : (0 : ℚ) < 1 + cfg.fee_rate := by linarith
        have : st.balance / (1 + cfg.fee_rate)
            + st.balance / (1 + cfg.fee_rate) * cfg.fee_rate = st.balance := by
          field_simp
          ring
        rw [this, sub_self]
      · rw [if_neg hc]
        dsimp only
        push_neg at hc
        linarith

/-- The fixed parameters of `Crypto_Trade_Backtest.py` as shipped. -/
def simDefaults : SimConfig := {}

/-- C6 witness: buying 5 from the default initial state (balance 1000)
leaves a nonnegative balance. -/
theorem do_buy_trade_no_overdraw_witness :
    0 ≤ (do_buy_trade macDefaults 5 100 0 (macInit macDefaults)).balance :=
  (do_buy_trade_no_overdraw macDefaults simDefaults 5 100 0
    (macInit macDefaults) ⟨1000, [], ⟨false, 0, 0⟩, []⟩
    (by norm_num [macDefaults]) (by norm_num [simDefaults])).2.1
    (by norm_num [macInit, macDefaults])

/-- The removal threshold is positive. -/
lemma epsSize_pos : (0 : ℚ) < epsSize := by norm_num [epsSize]

/-- A full sell (`ratio = 1.0`) reports the position's entire size on the
closed trade. -/
lemma do_partial_sell_full_size (cfg : MACConfig) (pos : Position) (price ts : ℚ) :
    (do_partial_sell cfg pos 1 price ts).1.size = pos.size := by
  unfold do_partial_sell
  dsimp only
  exact mul_one pos.size

/-- A full sell leaves residual size `0` (below the removal epsilon). -/
lemma do_partial_sell_residual_zero (cfg : MACConfig) (pos : Position) (price ts : ℚ) :
    (do_partial_sell cfg pos 1 price ts).2.1.size = 0 := by
  unfold do_partial_sell
  dsimp only
  rw [mul_one, sub_self, if_pos epsSize_pos]

/-- The sell loop never touches the accumulation plan. -/
lemma sellFold_plan (cfg : MACConfig) (p : Position → Bool) (price ts : ℚ) :
    ∀ (ps : List Position) (acc : MACState),
      (ps.foldl (sellStep cfg p price ts) acc).plan = acc.plan := by
  intro ps
  induction ps with
  | nil => intro acc; rfl
  | cons pos ps ih =>
    intro acc
    rw [List.foldl_cons, ih]
    unfold sellStep
    split <;> rfl

/-- What the sell loop does to the open and closed lists when every
position selected by `p` comes back from its full sell below the removal
epsilon: selected positions are removed, their full-size closed trades are
appended in order, the rest are kept in order. -/
lemma sellFold_spec (cfg : MACConfig) (p : Position → Bool) (price ts : ℚ)
    (hrem : ∀ pos : Position, p pos = true →
      (do_partial_sell cfg pos 1 price ts).2.1.size < epsSize) :
    ∀ (ps : List Position) (acc : MACState),
      (ps.foldl (sellStep cfg p price ts) acc).open_positions
        = acc.open_positions ++ ps.filter (fun x => !(p x))
      ∧ (ps.foldl (sellStep cfg p price ts) acc).closed_trades
        = acc.closed_trades
          ++ (ps.filter p).map (fun pos => (do_partial_sell cfg pos 1 price ts).1) := by
  intro ps
  induction ps with
  | nil => exact fun acc => ⟨by simp, by simp⟩
  | cons pos ps ih =>
    intro acc
    rw [List.foldl_cons]
    obtain ⟨ho, hc⟩ := ih (sellStep cfg p price ts acc pos)
    by_cases hp : p pos
    · have hstep : (sellStep cfg p price ts acc pos).open_positions
          = acc.open_positions
        ∧ (sellStep cfg p price ts acc pos).closed_trades
          = acc.closed_trades ++ [(do_partial_sell cfg pos 1 price ts).1] := by
        unfold sellStep
        rw [if_pos hp]
        exact ⟨by dsimp only; rw [if_pos (hrem pos hp)], rfl⟩
      constructor
      · rw [ho, hstep.1, List.filter_cons_of_neg (by simp [hp])]
      · rw [hc, hstep.2, List.filter_cons_of_pos hp, List.map_cons,
          List.append_assoc]
        rfl
    · have hstep : (sellStep cfg p price ts acc pos).open_positions
          = acc.open_positions ++ [pos]
        ∧ (sellStep cfg p price ts acc pos).closed_trades = acc.closed_trades := by
        unfold sellStep
        rw [if_neg hp]
        exact ⟨rfl, rfl⟩
      constructor
      · rw [ho, hstep.1, List.filter_cons_of_pos (by simp [hp]),
          List.append_assoc]
        rfl
      · rw [hc, hstep.2, List.filter_cons_of_neg (by simp [hp])]

/-- C7 (confirmed): on every bar, each open position whose close price has
reached `buyPrice·(1 + takeProfitPercent/100)` is fully liquidated by the
take-profit pass (independently of crossover state, which is only examined
afterwards): the appended `ClosedTrade` carries the position's entire
size, the residual size is exactly `0` — below the `1e-8` removal
epsilon — and the position is removed from the open set, which retains
exactly the non-triggered positions. -/
theorem take_profit_full_liquidation (cfg : MACConfig) (price ts : ℚ) (st : MACState) :
    (takeProfitStep cfg price ts st).open_positions
      = st.open_positions.filter (fun pos => !(tpTriggered cfg price pos))
    ∧ (takeProfitStep cfg price ts st).closed_trades
      = st.closed_trades ++ (st.open_positions.filter (tpTriggered cfg price)).map
          (fun pos => (do_partial_sell cfg pos 1 price ts).1)
    ∧ (∀ pos : Position, (do_partial_sell cfg pos 1 price ts).1.size = pos.size)
    ∧ (∀ pos : Position, (do_partial_sell cfg pos 1 price ts).2.1.size = 0)
    ∧ (0 : ℚ) < epsSize := by
  obtain ⟨ho, hc⟩ := sellFold_spec cfg (tpTriggered cfg price) price ts
    (fun pos _ => by rw [do_partial_sell_residual_zero]; exact epsSize_pos)
    st.open_positions { st with open_positions := [] }
  refine ⟨?_, ?_, fun pos => do_partial_sell_full_size cfg pos price ts,
    fun pos => do_partial_sell_residual_zero cfg pos price ts, epsSize_pos⟩
  · rw [show (takeProfitStep cfg price ts st).open_positions
      = (st.open_positions.foldl (sellStep cfg (tpTriggered cfg price) price ts)
          { st with open_positions := [] }).open_positions from rfl, ho]
    rfl
  · rw [show (takeProfitStep cfg price ts st).closed_trades
      = (st.open_positions.foldl (sellStep cfg (tpTriggered cfg price) price ts)
          { st with open_positions := [] }).closed_trades from rfl, hc]

/-- The sell loops leave the plan of the state they started from. -/
lemma sellPositionsWhere_plan (cfg : MACConfig) (p : Position → Bool)
    (price ts : ℚ) (st : MACState) :
    (sellPositionsWhere cfg p price ts st).plan = st.plan :=
  sellFold_plan cfg p price ts st.open_positions { st with open_positions := [] }

/-- C8 (confirmed): when a crossdown triggers while a plan is active, the
abort itself (resetting `active`, `steps_left`, `remaining_value`) changes
neither the balance nor the positions nor the closed trades; after the
crossdown handling the plan is fully reset, so any balance change on the
trigger bar can come only from the separate liquidation policy (with both
liquidation flags off the balance is untouched); and on any state whose
plan is inactive the accumulation step is the identity — no further buys
are executed from the aborted plan. -/
theorem crossdown_abort_frame (cfg : MACConfig) (price ts : ℚ) (st : MACState)
    (hact : st.plan.active = true) :
    (abortPlan st).balance = st.balance
    ∧ (abortPlan st).open_positions = st.open_positions
    ∧ (abortPlan st).closed_trades = st.closed_trades
    ∧ (crossdownActions cfg price ts st).plan = ⟨false, 0, 0⟩
    ∧ (cfg.close_all_on_crossdown = false → cfg.close_profit_on_crossdown = false →
        (crossdownActions cfg price ts st).balance = st.balance)
    ∧ (∀ st' : MACState, st'.plan.active = false →
        accumulationStep cfg price ts st' = st') := by
  refine ⟨rfl, rfl, rfl, ?_, ?_, ?_⟩
  · unfold crossdownActions
    rw [if_pos hact]
    by_cases h1 : cfg.close_all_on_crossdown
    · rw [if_pos h1, sellPositionsWhere_plan]
      rfl
    · rw [if_neg h1]
      by_cases h2 : cfg.close_profit_on_crossdown
      · rw [if_pos h2, sellPositionsWhere_plan]
        rfl
      · rw [if_neg h2]
        rfl
  · intro h1 h2
    unfold crossdownActions
    rw [if_pos hact, if_neg (by rw [h1]; exact Bool.false_ne_true),
      if_neg (by rw [h2]; exact Bool.false_ne_true)]
    rfl
  · intro st' hin
    unfold accumulationStep
    rw [if_neg (by rw [hin]; exact fun hand => Bool.false_ne_true hand.1)]

/-- A state with an active two-step accumulation plan worth 100. -/
def stWithActivePlan : MACState :=
  { macInit macDefaults with plan := ⟨true, 2, 100⟩ }

/-- C8 witness: on a concrete state with an active plan, the crossdown
handling resets the plan to `⟨false, 0, 0⟩`. -/
theorem crossdown_abort_frame_witness :
    (crossdownActions macDefaults 10 0 stWithActivePlan).plan = ⟨false, 0, 0⟩ :=
  (crossdown_abort_frame macDefaults 10 0 stWithActivePlan rfl).2.2.2.1

/-- Executed buy: when the notional is positive and notional plus fee fit
into the balance, `do_buy_trade` debits exactly `notional·(1 + feeRate)`
and appends exactly one position. -/
lemma do_buy_trade_exec (cfg : MACConfig) (tv price ts : ℚ) (st : MACState)
    (htv : 0 < tv) (hfee : 0 ≤ cfg.fee_rate)
    (hb : tv * (1 + cfg.fee_rate) ≤ st.balance) :
    (do_buy_trade cfg tv price ts st).balance
      = st.balance - tv * (1 + cfg.fee_rate)
    ∧ (do_buy_trade cfg tv price ts st).open_positions.length
      = st.open_positions.length + 1 := by
  have htvf : tv ≤ tv * (1 + cfg.fee_rate) := by nlinarith
  have hbpos : 0 < st.balance := lt_of_lt_of_le (by nlinarith) hb
  unfold do_buy_trade
  rw [if_neg (by push_neg; exact ⟨htv, hbpos⟩)]
  dsimp only
  rw [min_eq_left (le_trans htvf hb),
    if_neg (not_lt.2 (by nlinarith : tv + tv * cfg.fee_rate ≤ st.balance))]
  constructor
  · dsimp only
    ring
  · dsimp only
    rw [List.length_append]
    rfl

/-- One active accumulation bar: with `s+1` steps left and remaining value
`V` backed by sufficient balance, the step value is `V/(s+1)`; the buy
executes in full, the plan decrements, and it deactivates exactly when
this was the last step. -/
lemma accumulationStep_run (cfg : MACConfig) (price ts : ℚ) (st : MACState)
    (s : ℕ) (V : ℚ) (hplan : st.plan = ⟨true, s + 1, V⟩) (hV : 0 < V)
    (hfee : 0 ≤ cfg.fee_rate)
    (hbal : V * (1 + cfg.fee_rate) ≤ st.balance) :
    (accumulationStep cfg price ts st).plan
      = (if s = 0 then (⟨false, 0, V - V / (((s : ℚ) + 1))⟩ : Plan)
         else ⟨true, s, V - V / (((s : ℚ) + 1))⟩)
    ∧ (accumulationStep cfg price ts st).balance
      = st.balance - V / ((s : ℚ) + 1) * (1 + cfg.fee_rate)
    ∧ (accumulationStep cfg price ts st).open_positions.length
      = st.open_positions.length + 1 := by
  have hcast : ((s + 1 : ℕ) : ℚ) = (s : ℚ) + 1 := by push_cast; ring
  have hs1 : (1 : ℚ) ≤ ((s + 1 : ℕ) : ℚ) := by
    rw [hcast]
    have : (0 : ℚ) ≤ (s : ℚ) := Nat.cast_nonneg s
    linarith
  have hs1pos : (0 : ℚ) < ((s + 1 : ℕ) : ℚ) := lt_of_lt_of_le one_pos hs1
  have hstep_pos : 0 < V / ((s + 1 : ℕ) : ℚ) := div_pos hV hs1pos
  have hstep_le_V : V / ((s + 1 : ℕ) : ℚ) ≤ V := div_le_self hV.le hs1
  have hstep_bal : V / ((s + 1 : ℕ) : ℚ) * (1 + cfg.fee_rate) ≤ st.balance :=
    le_trans (mul_le_mul_of_nonneg_right hstep_le_V (by linarith)) hbal
  obtain ⟨hb1, hl1⟩ := do_buy_trade_exec cfg (V / ((s + 1 : ℕ) : ℚ)) price ts st
    hstep_pos hfee hstep_bal
  unfold accumulationStep
  simp only [hplan]
  rw [if_pos ⟨trivial, Nat.succ_pos s⟩]
  simp only [Nat.add_sub_cancel]
  by_cases hs : s = 0
  · simp only [if_pos hs]
    refine ⟨?_, ?_, ?_⟩
    · rw [hs]
      norm_num
    · rw [hb1, hcast]
    · rw [hl1]
  · simp only [if_neg hs]
    refine ⟨?_, ?_, ?_⟩
    · rw [hcast]
    · rw [hb1, hcast]
    · rw [hl1]

/-- C3 (confirmed): an accumulation plan opened with value `V` and `N`
steps, run over `N` consecutive active bars to normal completion (no
crossdown abort) with sufficient balance, executes exactly `N` buys — one
per bar, each bar's step value being `remainingValue/stepsRemaining` as in
the code — and the executed step values sum to exactly `V`: the balance
decreases by exactly `V·(1 + feeRate)` and the plan ends deactivated with
nothing left. -/
theorem accumulation_cycle_exact (cfg : MACConfig) :
    ∀ (N : ℕ) (bars : List (ℚ × ℚ)) (st : MACState) (V : ℚ),
    st.plan = ⟨true, N, V⟩ → 0 < N → 0 < V → 0 ≤ cfg.fee_rate →
    V * (1 + cfg.fee_rate) ≤ st.balance → bars.length = N →
    (runAccum cfg bars st).plan = ⟨false, 0, 0⟩
    ∧ (runAccum cfg bars st).open_positions.length
        = st.open_positions.length + N
    ∧ (runAccum cfg bars st).balance
        = st.balance - V * (1 + cfg.fee_rate) := by
  intro N
  induction N with
  | zero => exact fun bars st V _ hN => absurd hN (lt_irrefl 0)
  | succ s ih =>
    intro bars st V hplan hN hV hfee hbal hlen
    cases bars with
    | nil => exact absurd hlen (by simp)
    | cons b bs =>
      have hlen' : bs.length = s := by simpa using hlen
      obtain ⟨hp1, hb1, hl1⟩ :=
        accumulationStep_run cfg b.1 b.2 st s V hplan hV hfee hbal
      have hrun : runAccum cfg (b :: bs) st
          = runAccum cfg bs (accumulationStep cfg b.1 b.2 st) := rfl
      rw [hrun]
      by_cases hs : s = 0
      · subst hs
        have hbs : bs = [] := List.length_eq_zero.1 hlen'
        subst hbs
        have hplan0 : (accumulationStep cfg b.1 b.2 st).plan = ⟨false, 0, 0⟩ := by
          rw [hp1, if_pos rfl]
          norm_num
        refine ⟨hplan0, ?_, ?_⟩
        · show (accumulationStep cfg b.1 b.2 st).open_positions.length
            = st.open_positions.length + 1
          rw [hl1]
        · show (accumulationStep cfg b.1 b.2 st).balance
            = st.balance - V * (1 + cfg.fee_rate)
          rw [hb1]
          norm_num
      · have hscast : (1 : ℚ) ≤ (s : ℚ) :=
          Nat.one_le_cast.2 (Nat.one_le_iff_ne_zero.2 hs)
        have hfrac_lt : V / ((s : ℚ) + 1) < V := div_lt_self hV (by linarith)
        have hV' : 0 < V - V / ((s : ℚ) + 1) := sub_pos.2 hfrac_lt
        have hmul : (V - V / ((s : ℚ) + 1)) * (1 + cfg.fee_rate)
            = V * (1 + cfg.fee_rate) - V / ((s : ℚ) + 1) * (1 + cfg.fee_rate) :=
          sub_mul V (V / ((s : ℚ) + 1)) (1 + cfg.fee_rate)
        have hbal' : (V - V / ((s : ℚ) + 1)) * (1 + cfg.fee_rate)
            ≤ (accumulationStep cfg b.1 b.2 st).balance := by
          rw [hb1, hmul]
          linarith
        obtain ⟨hpf, hlf, hbf⟩ := ih bs (accumulationStep cfg b.1 b.2 st)
          (V - V / ((s : ℚ) + 1))
          (by rw [hp1, if_neg hs]) (Nat.pos_of_ne_zero hs) hV' hfee hbal' hlen'
        refine ⟨hpf, ?_, ?_⟩
        · rw [hlf, hl1]
          omega
        · rw [hbf, hb1, hmul]
          ring

/-- C3 witness: a two-step plan worth 100 run over two bars from balance
1000 completes with the plan fully reset. -/
theorem accumulation_cycle_exact_witness :
    (runAccum macDefaults [(10, 0), (11, 3600)] stWithActivePlan).plan
      = ⟨false, 0, 0⟩ :=
  (accumulation_cycle_exact macDefaults 2 [(10, 0), (11, 3600)] stWithActivePlan
    100 rfl (by norm_num) (by norm_num) (by norm_num [macDefaults])
    (by norm_num [macDefaults, stWithActivePlan, macInit]) rfl).1

/-- The end-of-run liquidation loop credits exactly the net proceeds of
every position: size times final close times `(1 - slippage)` times
`(1 - feeRate)`. -/
lemma simLiq_fold (cfg : SimConfig) (lc lt : ℚ) :
    ∀ (ps : List Position) (acc : SimState),
      (ps.foldl (simLiqStep cfg lc lt) acc).balance
        = acc.balance + (ps.map (fun pos =>
            pos.size * (lc * (1 - cfg.slippage)) * (1 - cfg.fee_rate))).sum := by
  intro ps
  induction ps with
  | nil => intro acc; simp
  | cons p ps ih =>
    intro acc
    rw [List.foldl_cons, ih]
    unfold simLiqStep
    dsimp only
    rw [List.map_cons, List.sum_cons]
    ring

/-- C1 (corrected, positive part): in `simulate_strategy` every position
still open after the simulation loop is liquidated at the final bar's
close reduced by slippage (and by the sell fee), and the reported final
balance equals the loop balance plus those net proceeds. -/
theorem simulate_strategy_liquidates_at_end (cfg : SimConfig) (params : SimParams)
    (data : List Bar) :
    (simulate_strategy cfg params data).final_balance
      = (simulate_loop cfg params data).balance
        + ((simulate_loop cfg params data).open_positions.map
            (fun pos => pos.size
              * ((data.map (fun b => b.close)).getD (data.length - 1) 0
                  * (1 - cfg.slippage))
              * (1 - cfg.fee_rate))).sum := by
  show (simFinalLiquidation cfg data (simulate_loop cfg params data)).balance = _
  unfold simFinalLiquidation
  cases h : (simulate_loop cfg params data).open_positions with
  | nil =>
    simp
  | cons p ps =>
    show (List.foldl (simLiqStep cfg
        ((List.map (fun b => b.close) data).getD (data.length - 1) 0)
        ((List.map (fun b => b.timestamp) data).getD (data.length - 1) 0))
        (simulate_loop cfg params data) (p :: ps)).balance = _
    rw [simLiq_fold]

/-- 44 hourly bars with strictly rising closes `100 + i`: the entry
condition fires at bar 40 and the two-step plan buys at bars 41 and 42,
leaving two open positions when the data ends. -/
def rising44 : List Bar := (List.range 44).map (fun i => ⟨3600 * i, 100 + i⟩)

set_option maxRecDepth 4000000 in
unseal Rat.add Rat.mul Rat.inv Rat.sub in
/-- C1 counterexample: the MA-crossover backtest does not liquidate
remaining positions at the end of a run.  On `rising44` with the shipped
settings, the returned results still hold two open positions, no trade
was ever closed, and the reported final balance is strictly below the
final equity — the proceeds of the open positions are missing from it. -/
theorem backtest_no_final_liquidation :
    (backtest_partial_accumulation_with_dd_and_partial_sells macDefaults
      rising44).open_positions.length = 2
    ∧ (backtest_partial_accumulation_with_dd_and_partial_sells macDefaults
        rising44).closed_trades.length = 0
    ∧ (backtest_partial_accumulation_with_dd_and_partial_sells macDefaults
        rising44).final_balance
      < (backtest_partial_accumulation_with_dd_and_partial_sells macDefaults
          rising44).final_equity := by
  decide

/-- C2 (corrected): for a sequence of at least 2 bars, the sample selector
returns `none` exactly when no index after the randomly chosen start
reaches the minimum duration — there is no fallback to "any end index
after start+1"; failure is not limited to sequences with fewer than
2 bars. -/
theorem get_random_sample_none_iff (rnd : ℕ → ℕ → ℕ) (min_period : ℚ)
    (data : List Bar) (h2 : 2 ≤ data.length)
    (hrnd : rnd 0 (data.length - 2) ≤ data.length - 2) :
    (get_random_sample rnd min_period data = none
      ↔ ∀ j, rnd 0 (data.length - 2) < j → j < data.length →
          (data.getD j ⟨0, 0⟩).timestamp
            < (data.getD (rnd 0 (data.length - 2)) ⟨0, 0⟩).timestamp + min_period) := by
  have hlt : rnd 0 (data.length - 2) < data.length :=
    lt_of_le_of_lt hrnd (Nat.sub_lt (by omega) (by omega))
  unfold get_random_sample
  rw [if_neg (not_lt.2 h2), if_neg (not_le.2 hlt)]
  cases hf : (List.range' (rnd 0 (data.length - 2) + 1)
      (data.length - (rnd 0 (data.length - 2) + 1))).find?
      (fun j => decide ((data.getD (rnd 0 (data.length - 2)) ⟨0, 0⟩).timestamp
        + min_period ≤ (data.getD j ⟨0, 0⟩).timestamp)) with
  | none =>
    simp only [hf]
    constructor
    · intro _ j hj1 hj2
      have hmem : j ∈ List.range' (rnd 0 (data.length - 2) + 1)
          (data.length - (rnd 0 (data.length - 2) + 1)) := by
        rw [List.mem_range'_1]
        omega
      have := List.find?_eq_none.1 hf j hmem
      simp only [decide_eq_true_eq] at this
      exact lt_of_not_le this
    · intro _
      trivial
  | some e0 =>
    simp only [hf]
    constructor
    · intro hcontra
      exact absurd hcontra (Option.some_ne_none _)
    · intro hall
      have hmem := List.find?_some hf
      have hmem2 := List.mem_of_find?_eq_some hf
      rw [List.mem_range'_1] at hmem2
      simp only [decide_eq_true_eq] at hmem
      exact absurd hmem (not_le.2 (hall e0 (by omega) (by omega)))

/-- The oracle that always answers its lower bound: with two bars,
`random.randint(0, 0)` can only return `0`, so this is the only possible
behaviour there. -/
def rndLo : ℕ → ℕ → ℕ := fun lo _ => lo

/-- Two bars one hour apart — far less than the minimum duration. -/
def twoBars : List Bar := [⟨0, 1⟩, ⟨3600, 2⟩]

unseal Rat.add Rat.mul in
/-- C2 counterexample: a 2-bar sequence spanning one hour has at least
2 bars, yet `get_random_sample` returns failure — there is no fallback to
"any end index after start+1" when the minimum duration cannot be met. -/
theorem get_random_sample_no_fallback :
    2 ≤ twoBars.length
    ∧ get_random_sample rndLo MIN_PERIOD_SECONDS twoBars = none := by
  decide

unseal Rat.add Rat.mul in
/-- C2 witness: the failure characterization instantiated on the concrete
2-bar input. -/
theorem get_random_sample_none_iff_witness :
    get_random_sample rndLo MIN_PERIOD_SECONDS twoBars = none
      ↔ ∀ j, rndLo 0 (twoBars.length - 2) < j → j < twoBars.length →
          (twoBars.getD j ⟨0, 0⟩).timestamp
            < (twoBars.getD (rndLo 0 (twoBars.length - 2)) ⟨0, 0⟩).timestamp
              + MIN_PERIOD_SECONDS :=
  get_random_sample_none_iff rndLo MIN_PERIOD_SECONDS twoBars (by decide) (by decide)

/-- C9 (corrected): the aggregator groups the combined per-coin rows by
`(short, mid, long, reentry_gap, coin)`; each output row carries the sum,
mean and count of `final_balance` and `total_pnl` over its group's input
rows; and it produces a single ranking, sorted by `average_final_balance`
in descending order.  No profit factor and no second ranking exist. -/
theorem aggregate_overall_results_spec (rows : List ResultRow) :
    List.Sorted aggGE (aggregate_overall_results rows)
    ∧ ∀ g ∈ aggregate_overall_results rows,
        g.total_final_balance
          = ((rows.filter (fun r => rowKey r = aggKey g)).map
              (fun r => r.final_balance)).sum
        ∧ g.total_pnl
          = ((rows.filter (fun r => rowKey r = aggKey g)).map
              (fun r => r.total_pnl)).sum
        ∧ g.num_trials = (rows.filter (fun r => rowKey r = aggKey g)).length
        ∧ g.average_final_balance = g.total_final_balance / (g.num_trials : ℚ)
        ∧ g.average_pnl = g.total_pnl / (g.num_trials : ℚ) := by
  constructor
  · exact List.sorted_insertionSort aggGE _
  · intro g hg
    rw [aggregate_overall_results, List.mem_insertionSort] at hg
    obtain ⟨k, _, rfl⟩ := List.mem_map.1 hg
    exact ⟨rfl, rfl, rfl, rfl, rfl⟩

/-- Three runs of one combination on one coin, with PnLs `+10, +20, -5`. -/
def rows9 : List ResultRow :=
  [⟨14, 18, 40, 10, "X", 1010, 10⟩,
   ⟨14, 18, 40, 10, "X", 1020, 20⟩,
   ⟨14, 18, 40, 10, "X", 995, -5⟩]

unseal Rat.add Rat.mul Rat.inv Rat.sub in
/-- C9 counterexample: on the PnL list `[+10, +20, -5]` the claim predicts
a profit factor of `6.0`; the aggregator's actual output for these rows is
a single row of sums, means and a count — none of its numeric fields
equals `6`, and only this one ranking (by average final balance) is
produced. -/
theorem aggregate_no_profit_factor :
    aggregate_overall_results rows9
      = [⟨14, 18, 40, 10, "X", 3025, 3025/3, 25, 25/3, 3⟩]
    ∧ ∀ g ∈ aggregate_overall_results rows9,
        g.total_final_balance ≠ 6 ∧ g.average_final_balance ≠ 6
        ∧ g.total_pnl ≠ 6 ∧ g.average_pnl ≠ 6 ∧ g.num_trials ≠ 6 := by
  decide
